import Mathlib

/-!
# Verification of the slide-automation core (`main.js`)

A shallow embedding of the content-extraction and template-expansion core of
the Google Apps Script in this repository.  JavaScript strings are modelled as
lists of UTF-16 code units (`Str := List Nat`); every regex used by the source
is transcribed into a small explicit backtracking matcher (`RItem` lists), so
each JS `String.prototype.replace`/`match` call corresponds to a named Lean
definition built from that matcher.

Sections:
* basic string operations (trim, lowercase, literal replace, split, join);
* the regex matcher (character-class items with JS greedy/lazy quantifier
  semantics, leftmost match, global replace continuing after each match);
* embeddings of: `calculateTextHeight` / `adjustFontSizeToFitShape`,
  `createVersesSlides`'s slide-list builder and duplication loop,
  `decodeHtmlEntities`, `extractHymnVerses`, `extractScriptureText`,
  and the email-lyrics extraction of `searchGmailForPraiseLyrics`;
* one theorem per claim, with witnesses / counterexamples.
-/

set_option maxHeartbeats 2000000
set_option maxRecDepth 4000

/-- JS strings are sequences of UTF-16 code units. -/
abbrev Str := List Nat

/-- Convert a Lean string literal (BMP characters only) to its code-unit list. -/
def uts (s : String) : Str := s.data.map Char.toNat

/-- JS whitespace (`\s`, also what `String.prototype.trim` removes):
tab, LF, VT, FF, CR, space, NBSP and the Unicode space/line separators. -/
def isWsCode (c : Nat) : Bool :=
  c == 9 || c == 10 || c == 11 || c == 12 || c == 13 || c == 32 || c == 160 ||
  c == 0x1680 || (0x2000 ≤ c && c ≤ 0x200A) || c == 0x2028 || c == 0x2029 ||
  c == 0x202F || c == 0x205F || c == 0x3000 || c == 0xFEFF

/-- `String.prototype.trim`. -/
def trimWs (s : Str) : Str :=
  ((s.dropWhile isWsCode).reverse.dropWhile isWsCode).reverse

/-- ASCII case lowering; models `String.prototype.toLowerCase` on the
ASCII range that all compared words in the source live in. -/
def lowCode (c : Nat) : Nat := if 65 ≤ c ∧ c ≤ 90 then c + 32 else c

/-- `String.prototype.toLowerCase` (ASCII fragment). -/
def toLowerS (s : Str) : Str := s.map lowCode

/-- Does `s` start with `pat`? -/
def hasPref : Str → Str → Bool
  | [], _ => true
  | _ :: _, [] => false
  | p :: ps, c :: cs => p == c && hasPref ps cs

/-- Does `s` contain `pat` as a contiguous substring
(JS `String.prototype.includes`)? -/
def hasSub : Str → Str → Bool
  | s, pat =>
    hasPref pat s ||
      match s with
      | [] => false
      | _ :: cs => hasSub cs pat

/-- Fuelled worker for `repAll` (each step consumes at least one character,
so fuel `s.length` always suffices; exhausted fuel returns the rest
unchanged, which the wrapper never reaches). -/
def repAllF (pat rep : Str) : Nat → Str → Str
  | 0, s => s
  | _ + 1, [] => []
  | fuel + 1, c :: cs =>
    if pat ≠ [] ∧ hasPref pat (c :: cs) then
      rep ++ repAllF pat rep fuel (List.drop (pat.length - 1) cs)
    else
      c :: repAllF pat rep fuel cs

/-- JS `str.replace(/lit/g, rep)` for a literal pattern: replace all
non-overlapping occurrences left to right. -/
def repAll (pat rep : Str) (s : Str) : Str := repAllF pat rep s.length s

/-- JS `str.replace("lit", rep)` with a plain string pattern: replace only the
first occurrence (this is what the verse-number restore loop uses). -/
def repFirst (pat rep : Str) : Str → Str
  | [] => if pat == [] then rep else []
  | c :: cs =>
    if hasPref pat (c :: cs) then rep ++ List.drop pat.length (c :: cs)
    else c :: repFirst pat rep cs

/-- JS `str.split(sep)` for a one-character separator, keeping empty pieces. -/
def splitOnCode (sep : Nat) : Str → List Str
  | [] => [[]]
  | c :: cs =>
    match splitOnCode sep cs with
    | [] => [[c]]
    | h :: t => if c == sep then [] :: h :: t else (c :: h) :: t

/-- JS `arr.join('\n')`. -/
def joinNl (ls : List Str) : Str := List.intercalate [10] ls

/-- Does `s` end with `pat`? -/
def hasSuf (s pat : Str) : Bool := hasPref pat.reverse s.reverse

/-- `\d` -/
def isDigitC (c : Nat) : Bool := 48 ≤ c && c ≤ 57

/-- `[a-fA-F0-9]` -/
def isHexC (c : Nat) : Bool :=
  isDigitC c || (65 ≤ c && c ≤ 70) || (97 ≤ c && c ≤ 102)

/-- `[a-zA-Z]` -/
def isAlphaC (c : Nat) : Bool := (65 ≤ c && c ≤ 90) || (97 ≤ c && c ≤ 122)

/-- Decimal value of a digit string (JS number coercion of a `\d+` capture). -/
def decVal (acc : Nat) : Str → Nat
  | [] => acc
  | c :: cs => decVal (acc * 10 + (c - 48)) cs

/-- Value of one hex digit. -/
def hexDigVal (c : Nat) : Nat :=
  if c ≤ 57 then c - 48 else if c ≤ 70 then c - 55 else c - 87

/-- Hex value of a `[a-fA-F0-9]+` capture (JS `parseInt(hex, 16)`). -/
def hexVal (acc : Nat) : Str → Nat
  | [] => acc
  | c :: cs => hexVal (acc * 16 + hexDigVal c) cs

/-- Decimal digit string of a natural number (JS template `${index}`). -/
def natDecDigitsAux : Nat → Nat → Str
  | 0, _ => []
  | fuel + 1, n =>
    if n < 10 then [48 + n] else natDecDigitsAux fuel (n / 10) ++ [48 + n % 10]

/-- Decimal digit string of a natural number. -/
def natDecDigits (n : Nat) : Str := natDecDigitsAux (n + 1) n

/-! ## A tiny regex matcher

Each JS regex used by the source is a sequence of character classes with
quantifiers (no nested groups are needed).  The matcher implements JS
semantics: leftmost match, greedy (`*`, `+`, `?`) quantifiers trying long
candidates first and lazy (`*?`) ones short first, with full backtracking. -/

/-- Quantifier of one regex item. -/
inductive Quant
  | one | opt | starG | starL | plusG
  deriving Repr

/-- One regex item: a character class with a quantifier. -/
structure RItem where
  cls : Nat → Bool
  q : Quant

/-- Length of the maximal prefix of `s` inside class `p`. -/
def runLen (p : Nat → Bool) : Str → Nat
  | [] => 0
  | c :: cs => if p c then runLen p cs + 1 else 0

/-- Candidate consumption counts for one item, in backtracking order. -/
def cands (it : RItem) (s : Str) : List Nat :=
  match it.q with
  | .one => if (s.head?.map it.cls).getD false then [1] else []
  | .opt => if (s.head?.map it.cls).getD false then [1, 0] else [0]
  | .starG => (List.range (runLen it.cls s + 1)).reverse
  | .starL => List.range (runLen it.cls s + 1)
  | .plusG => ((List.range (runLen it.cls s)).reverse).map (· + 1)

/-- Match an item sequence against a prefix of `s`; returns the per-item
consumption counts of the first successful assignment (JS backtracking
order), or `none`. -/
def matchSeq : List RItem → Str → Option (List Nat)
  | [], _ => some []
  | it :: rest, s =>
    (cands it s).findSome? fun k => (matchSeq rest (s.drop k)).map (k :: ·)

/-- Does the item sequence match the whole of `s` (a `^...$` test)? -/
def matchesFull : List RItem → Str → Bool
  | [], s => s.isEmpty
  | it :: rest, s => (cands it s).any fun k => matchesFull rest (s.drop k)

/-- Leftmost match: position and per-item counts of the first match. -/
def findMatch (items : List RItem) : Str → Option (Nat × List Nat)
  | [] => (matchSeq items []).map ((0, ·))
  | c :: cs =>
    match matchSeq items (c :: cs) with
    | some cnts => some (0, cnts)
    | none => (findMatch items cs).map fun pr => (pr.1 + 1, pr.2)

/-- Sum of consumption counts = total match length. -/
def sumL (l : List Nat) : Nat := l.foldr (· + ·) 0

/-- Slice of the capture group that is item number `k` of the match at
position `p` with counts `cnts`. -/
def capSlice (s : Str) (p : Nat) (cnts : List Nat) (k : Nat) : Str :=
  (((s.drop p).drop (sumL (cnts.take k))).take (cnts.getD k 0))

/-- Fuelled worker for `gRepl` (every match region is consumed whole, so fuel
`s.length + 1` always suffices). -/
def gReplF (items : List RItem) (rf : Str → List Nat → Str) : Nat → Str → Str
  | 0, s => s
  | _ + 1, [] =>
    match matchSeq items [] with
    | some cnts => rf [] cnts
    | none => []
  | fuel + 1, c :: cs =>
    match findMatch items (c :: cs) with
    | none => c :: cs
    | some (p, cnts) =>
      let m := sumL cnts
      (c :: cs).take p ++ rf (((c :: cs).drop p).take m) cnts ++
        gReplF items rf fuel ((c :: cs).drop (p + max m 1))

/-- JS `str.replace(re_g, f)`: repeatedly find the leftmost match, emit the
replacement, and continue scanning after the matched region (none of the
source's patterns can match the empty string; the `max m 1` consumption
guards against an empty match). -/
def gRepl (items : List RItem) (rf : Str → List Nat → Str) (s : Str) : Str :=
  gReplF items rf (s.length + 1) s

/-- Fuelled worker for `findAll`. -/
def findAllF (items : List RItem) : Nat → Str → List Str
  | 0, _ => []
  | _ + 1, [] => []
  | fuel + 1, c :: cs =>
    match findMatch items (c :: cs) with
    | none => []
    | some (p, cnts) =>
      let m := sumL cnts
      (((c :: cs).drop p).take m) ::
        findAllF items fuel ((c :: cs).drop (p + max m 1))

/-- JS `str.match(re_g)`: the list of all (non-overlapping, leftmost-first)
matched substrings. -/
def findAll (items : List RItem) (s : Str) : List Str :=
  findAllF items (s.length + 1) s

/-- Literal one-character item. -/
def li (c : Nat) : RItem := ⟨(· == c), Quant.one⟩

/-- Item sequence for a case-sensitive literal. -/
def lits (s : String) : List RItem := (uts s).map li

/-- Item sequence for a case-insensitive literal (an `i`-flagged regex). -/
def litsCI (s : String) : List RItem :=
  (uts s).map fun c => ⟨(fun x => lowCode x == lowCode c), Quant.one⟩

/-- Class item with quantifier. -/
def cl (p : Nat → Bool) (q : Quant) : RItem := ⟨p, q⟩

/-- `[\s\S]` -/
def anyC : Nat → Bool := fun _ => true

/-- JS `.` (anything but a line terminator). -/
def noNl (c : Nat) : Bool := !(c == 10 || c == 13 || c == 0x2028 || c == 0x2029)

/-- `[^>]` -/
def nonGt (c : Nat) : Bool := !(c == 62)

/-- `["']` -/
def quoteC (c : Nat) : Bool := c == 34 || c == 39

/-- `[^"']` -/
def nonQuoteC (c : Nat) : Bool := !(quoteC c)

/-- `[A-Z]` -/
def upperC (c : Nat) : Bool := 65 ≤ c && c ≤ 90

/-! ## Autofit sizer (`CONFIG`, `calculateTextHeight`, `adjustFontSizeToFitShape`) -/

/-- `CONFIG.MIN_FONT_SIZE` -/
def MIN_FONT_SIZE : Nat := 50

/-- `CONFIG.DEFAULT_FONT_SIZE` -/
def DEFAULT_FONT_SIZE : Nat := 60

/-- `CONFIG.LINE_SPACING` -/
def LINE_SPACING : Nat := 2

/-- `(text.match(/\n/g) || []).length + 1`: the number of
newline-separated lines. -/
def numLines (text : Str) : Nat := (text.filter (· == 10)).length + 1

/-- `calculateTextHeight(text, fontSize) = fontSize * CONFIG.LINE_SPACING * numLines`. -/
def calculateTextHeight (text : Str) (fontSize : Nat) : Nat :=
  fontSize * LINE_SPACING * numLines text

/-- The regex `/\n\s*\n/g` (collapse blank lines), as items. -/
def nlWsNlItems : List RItem := [li 10, cl isWsCode Quant.starG, li 10]

/-- `text.replace(/\n\s*\n/g, '\n').replace(/^\s+|\s+$/g, '').trim()` from
`adjustFontSizeToFitShape` (the `/^\s+|\s+$/g` deletion is exactly a trim,
and the final `.trim()` is applied on top of it). -/
def cleanedOf (text : Str) : Str :=
  trimWs (trimWs (gRepl nlWsNlItems (fun _ _ => [10]) text))

/-- The `while` loop of `adjustFontSizeToFitShape`: starting from `f`,
decrement while the estimated height exceeds the shape height and the size
is above the minimum.  Heights are JS numbers, modelled as rationals. -/
def sizeLoop (ct : Str) (h : ℚ) : Nat → Nat
  | 0 => 0
  | k + 1 =>
    if ((calculateTextHeight ct (k + 1) : ℚ) > h ∧ MIN_FONT_SIZE < k + 1) then
      sizeLoop ct h k
    else k + 1

/-- `adjustFontSizeToFitShape`: the font size chosen for `text` in a shape of
height `h` (the shape's text is set to `cleanedOf text` and the loop starts
at `CONFIG.DEFAULT_FONT_SIZE`). -/
def adjustFontSize (text : Str) (h : ℚ) : Nat :=
  sizeLoop (cleanedOf text) h DEFAULT_FONT_SIZE

theorem sizeLoop_spec (ct : Str) (h : ℚ) :
    ∀ f, MIN_FONT_SIZE ≤ f →
    MIN_FONT_SIZE ≤ sizeLoop ct h f ∧ sizeLoop ct h f ≤ f ∧
      ((calculateTextHeight ct (sizeLoop ct h f) : ℚ) ≤ h ∨
        sizeLoop ct h f = MIN_FONT_SIZE) ∧
      (∀ s, sizeLoop ct h f < s → s ≤ f → h < (calculateTextHeight ct s : ℚ)) := by
  intro f
  induction f with
  | zero => intro hf; exact absurd hf (by decide)
  | succ k ih =>
    intro hf
    simp only [sizeLoop]
    split
    · rename_i hcond
      obtain ⟨hgt, hmin⟩ := hcond
      have hrec := ih (by simp only [MIN_FONT_SIZE] at *; omega)
      refine ⟨hrec.1, by omega, hrec.2.2.1, ?_⟩
      intro s hs1 hs2
      rcases Nat.lt_or_ge k s with hc | hc
      · have hsf : s = k + 1 := by omega
        subst hsf
        exact hgt
      · exact hrec.2.2.2 s hs1 hc
    · rename_i hcond
      refine ⟨hf, le_refl (k + 1), ?_, ?_⟩
      · push_neg at hcond
        by_cases hgt : (calculateTextHeight ct (k + 1) : ℚ) ≤ h
        · exact Or.inl hgt
        · right
          have := hcond (lt_of_not_le hgt)
          omega
      · intro s hs1 hs2
        omega

/-- C1.  For every input text and container height, the Autofit Sizer's
estimate is `fontSize * LINE_SPACING * (number of newline-separated lines)`,
and the chosen size lies in `[MIN_FONT_SIZE, DEFAULT_FONT_SIZE]`, is the
largest size in that range whose estimated height fits the container (or the
minimum when none fits): it fits unless it is the minimum, and every strictly
larger size in the range overflows. -/
theorem C1_autofit_spec (text : Str) (h : ℚ) :
    (∀ s, calculateTextHeight (cleanedOf text) s =
      s * LINE_SPACING * (((cleanedOf text).filter (· == 10)).length + 1)) ∧
    MIN_FONT_SIZE ≤ adjustFontSize text h ∧
    adjustFontSize text h ≤ DEFAULT_FONT_SIZE ∧
    ((calculateTextHeight (cleanedOf text) (adjustFontSize text h) : ℚ) ≤ h ∨
      adjustFontSize text h = MIN_FONT_SIZE) ∧
    (∀ s, adjustFontSize text h < s → s ≤ DEFAULT_FONT_SIZE →
      h < (calculateTextHeight (cleanedOf text) s : ℚ)) := by
  have := sizeLoop_spec (cleanedOf text) h DEFAULT_FONT_SIZE (by decide)
  exact ⟨fun s => rfl, this.1, this.2.1, this.2.2.1, this.2.2.2⟩

/-- Witness for C1 at the concrete text `"a\nb"` (two lines) and height 150:
the chosen size is forced below the default. -/
theorem C1_autofit_witness :
    (∀ s, calculateTextHeight (cleanedOf (uts "a\nb")) s =
      s * LINE_SPACING * (((cleanedOf (uts "a\nb")).filter (· == 10)).length + 1)) ∧
    MIN_FONT_SIZE ≤ adjustFontSize (uts "a\nb") 150 ∧
    adjustFontSize (uts "a\nb") 150 ≤ DEFAULT_FONT_SIZE ∧
    ((calculateTextHeight (cleanedOf (uts "a\nb"))
        (adjustFontSize (uts "a\nb") 150) : ℚ) ≤ 150 ∨
      adjustFontSize (uts "a\nb") 150 = MIN_FONT_SIZE) ∧
    (∀ s, adjustFontSize (uts "a\nb") 150 < s → s ≤ DEFAULT_FONT_SIZE →
      (150 : ℚ) < (calculateTextHeight (cleanedOf (uts "a\nb")) s : ℚ)) :=
  C1_autofit_spec (uts "a\nb") 150

/-! ## `createVersesSlides`: slide-list construction and template expansion -/

/-- The `type` tag of a `slidesToCreate` entry. -/
inductive SKind
  | verse | refrain
  deriving DecidableEq, Repr

/-- One `slidesToCreate` entry `{ type, text }`. -/
structure SData where
  kind : SKind
  text : Str
  deriving DecidableEq, Repr

/-- `refrain.replace(/Refrain/g, '[Refrain]')`. -/
def formatRefrain (refrain : Str) : Str :=
  repAll (uts "Refrain") (uts "[Refrain]") refrain

/-- The `verses.forEach` loop of `createSlidesForHymn`: push each verse whose
text is truthy and non-blank, followed (when `refrain` is truthy and the verse
is not at the last index, i.e. the remaining verse list is non-empty) by one
bracketed refrain copy. -/
def slidesToCreateFor (verses : List Str) (refrain : Str) : List SData :=
  match verses with
  | [] => []
  | v :: vs =>
    (if v ≠ [] ∧ trimWs v ≠ [] then
      SData.mk SKind.verse v ::
        (if refrain ≠ [] ∧ vs ≠ [] then
          [SData.mk SKind.refrain (formatRefrain refrain)]
        else [])
    else []) ++ slidesToCreateFor vs refrain

/-- `/^\d+$/.test(s)`: is `s` one or more digits? -/
def isAllDigits (s : Str) : Bool := !s.isEmpty && s.all isDigitC

/-- The trailing pop of `createSlidesForHymn`: if the last slide's trimmed
text is purely numeric, drop it. -/
def dropTrailingNum (l : List SData) : List SData :=
  match l.getLast? with
  | none => l
  | some d => if isAllDigits (trimWs d.text) then l.dropLast else l

/-- The complete `slidesToCreate` list of `createSlidesForHymn`. -/
def createSlidesFor (verses : List Str) (refrain : Str) : List SData :=
  dropTrailingNum (slidesToCreateFor verses refrain)

/-- Spec-side definition (from the spec's words, for comparison): "after each
verse except the last, insert a refrain copy". -/
def specInterleave (verses : List Str) (r : Str) : List SData :=
  match verses with
  | [] => []
  | [v] => [SData.mk SKind.verse v]
  | v :: vs =>
    SData.mk SKind.verse v :: SData.mk SKind.refrain r :: specInterleave vs r

theorem slidesToCreateFor_cons (v : Str) (vs : List Str) (r : Str) :
    slidesToCreateFor (v :: vs) r =
      (if v ≠ [] ∧ trimWs v ≠ [] then
        SData.mk SKind.verse v ::
          (if r ≠ [] ∧ vs ≠ [] then
            [SData.mk SKind.refrain (formatRefrain r)]
          else [])
      else []) ++ slidesToCreateFor vs r := rfl

/-- C2.  With a refrain present and no blank verses, the slide list is the
verses interleaved with bracketed refrain copies (one after each verse but
the last); the emitted list then drops a purely-numeric trailing block; and
the spec's concrete example `["verse one", "2"]` (no refrain) yields exactly
one unit containing "verse one". -/
theorem C2_interleave (verses : List Str) (refrain : Str)
    (h1 : refrain ≠ []) (h2 : ∀ v ∈ verses, trimWs v ≠ []) :
    slidesToCreateFor verses refrain =
      specInterleave verses (formatRefrain refrain) ∧
    createSlidesFor verses refrain =
      dropTrailingNum (specInterleave verses (formatRefrain refrain)) ∧
    createSlidesFor [uts "verse one", uts "2"] [] =
      [SData.mk SKind.verse (uts "verse one")] := by
  have main : slidesToCreateFor verses refrain =
      specInterleave verses (formatRefrain refrain) := by
    induction verses with
    | nil => rfl
    | cons v vs ih =>
      have hv : trimWs v ≠ [] := h2 v (List.mem_cons_self v vs)
      have hv' : v ≠ [] := by
        intro h; rw [h] at hv; exact hv rfl
      cases vs with
      | nil =>
        simp [slidesToCreateFor, specInterleave, hv, hv']
      | cons v2 vs2 =>
        have ih' := ih (fun x hx => h2 x (List.mem_cons_of_mem v hx))
        rw [slidesToCreateFor_cons, ih']
        simp only [specInterleave]
        simp [hv, hv', h1]
  exact ⟨main, by rw [createSlidesFor, main], by decide⟩

/-- Witness for C2 at verses `["one", "two"]`, refrain `"The Refrain"`. -/
theorem C2_interleave_witness :
    slidesToCreateFor [uts "one", uts "two"] (uts "The Refrain") =
      specInterleave [uts "one", uts "two"] (formatRefrain (uts "The Refrain")) ∧
    createSlidesFor [uts "one", uts "two"] (uts "The Refrain") =
      dropTrailingNum
        (specInterleave [uts "one", uts "two"] (formatRefrain (uts "The Refrain"))) ∧
    createSlidesFor [uts "verse one", uts "2"] [] =
      [SData.mk SKind.verse (uts "verse one")] :=
  C2_interleave [uts "one", uts "two"] (uts "The Refrain") (by decide) (by decide)

/-! ## The duplication loop and the host document

A slide is modelled as its single main text shape (text, height, font size)
plus a provenance bit `fresh` recording whether it was created by
`duplicate()` during the current expansion.  The host's documented semantics
(`Slide.duplicate` inserts the copy immediately after the original) make the
document suffix after the anchor the loop's state: each duplication conses
the new slide onto that suffix. -/

structure SlideU where
  text : Str
  height : ℚ
  fontSize : Nat
  fresh : Bool
  deriving DecidableEq

/-- `templateSlide.duplicate()`: a copy of the anchor, marked fresh. -/
def dupSlide (a : SlideU) : SlideU := { a with fresh := true }

/-- `adjustFontSizeToFitShape(shape, text)` on a slide's main shape: the text
becomes the cleaned block text, the font size the autofit loop's result. -/
def adjustFit (sl : SlideU) (text : Str) : SlideU :=
  { sl with
    text := cleanedOf text
    fontSize := sizeLoop (cleanedOf text) sl.height DEFAULT_FONT_SIZE }

/-- The `slidesToCreate.reverse().forEach` loop of `createSlidesForHymn`,
acting on the document suffix after the anchor. -/
def runDupLoop (anchor : SlideU) : List SData → List SlideU → List SlideU
  | [], suffix => suffix
  | d :: rest, suffix =>
    runDupLoop anchor rest (adjustFit (dupSlide anchor) d.text :: suffix)

/-- The document after `createSlidesForHymn` expanded `blocks` at `anchor`. -/
def expandBlocks (before : List SlideU) (anchor : SlideU) (after : List SlideU)
    (blocks : List SData) : List SlideU :=
  before ++ anchor :: runDupLoop anchor blocks.reverse after

/-- The document after `createPresentation` additionally removed the template
slide (main.js lines 278-283). -/
def expandRemove (before : List SlideU) (anchor : SlideU) (after : List SlideU)
    (blocks : List SData) : List SlideU :=
  before ++ runDupLoop anchor blocks.reverse after

theorem runDupLoop_eq (anchor : SlideU) :
    ∀ (l : List SData) (suffix : List SlideU),
      runDupLoop anchor l suffix =
        (l.reverse.map fun d => adjustFit (dupSlide anchor) d.text) ++ suffix := by
  intro l
  induction l with
  | nil => intro suffix; rfl
  | cons d rest ih =>
    intro suffix
    simp only [runDupLoop, ih, List.reverse_cons, List.map_append, List.map_cons,
      List.map_nil, List.append_assoc, List.singleton_append]

/-- C4.  Under the host semantics that `duplicate` inserts the copy
immediately after the original, the reverse-order duplication loop leaves the
freshly created units in the document in exactly the input block order, for
every block list. -/
theorem C4_order (before : List SlideU) (anchor : SlideU) (after : List SlideU)
    (blocks : List SData) :
    expandBlocks before anchor after blocks =
      before ++ anchor ::
        ((blocks.map fun d => adjustFit (dupSlide anchor) d.text) ++ after) := by
  simp only [expandBlocks, runDupLoop_eq, List.reverse_reverse]

/-- A concrete anchor slide carrying the lyrics marker. -/
def anchorEx : SlideU :=
  SlideU.mk (uts "\x7b\x7bopening_lyrics\x7d\x7d") 1000 60 false

/-- C3 counterexample.  Expanding the single block `"a"` at a concrete anchor:
the block's container is a fresh duplicate (not the anchor), in the
pre-removal document the anchor still holds the untouched marker text rather
than the last block's text, and after `createPresentation` removes the
template slide the anchor is gone altogether — so the anchor does not
"become the last block's container" as the claim states. -/
theorem C3_counterexample :
    expandRemove [] anchorEx [] [SData.mk SKind.verse (uts "a")] =
      [SlideU.mk (uts "a") 1000 60 true] ∧
    expandBlocks [] anchorEx [] [SData.mk SKind.verse (uts "a")] =
      [anchorEx, SlideU.mk (uts "a") 1000 60 true] ∧
    (SlideU.mk (uts "a") 1000 60 true).fresh = true ∧
    anchorEx.fresh = false ∧
    anchorEx.text ≠ cleanedOf (uts "a") := by
  refine ⟨by decide, by decide, rfl, rfl, by decide⟩

/-- C3 amended.  For every expansion with a non-empty block list, the loop
produces exactly one output unit per block, every one of them a fresh
duplicate of the anchor; the anchor itself is assigned no block's text and is
removed afterwards, so it is no block's container. -/
theorem C3_amended (before after : List SlideU) (anchor : SlideU)
    (blocks : List SData) (hne : blocks ≠ []) (ha : anchor.fresh = false) :
    expandRemove before anchor after blocks =
      before ++ ((blocks.map fun d => adjustFit (dupSlide anchor) d.text) ++ after) ∧
    (expandRemove before anchor after blocks).length =
      before.length + blocks.length + after.length ∧
    (∀ d : SData, (adjustFit (dupSlide anchor) d.text).fresh = true ∧
      adjustFit (dupSlide anchor) d.text ≠ anchor) := by
  have heq : expandRemove before anchor after blocks =
      before ++ ((blocks.map fun d => adjustFit (dupSlide anchor) d.text) ++ after) := by
    simp only [expandRemove, runDupLoop_eq, List.reverse_reverse]
  refine ⟨heq, ?_, ?_⟩
  · rw [heq]
    simp only [List.length_append, List.length_map]
    omega
  · intro d
    refine ⟨rfl, fun hcontra => ?_⟩
    have hfr : (adjustFit (dupSlide anchor) d.text).fresh = anchor.fresh := by
      rw [hcontra]
    rw [ha] at hfr
    exact absurd (show (true : Bool) = false from hfr) (by decide)

/-- Witness for C3's amended statement: one block, concrete anchor. -/
theorem C3_amended_witness :
    (expandRemove [] anchorEx [] [SData.mk SKind.verse (uts "a")] =
      [] ++ (([SData.mk SKind.verse (uts "a")].map
        fun d => adjustFit (dupSlide anchorEx) d.text) ++ []) ∧
    (expandRemove [] anchorEx [] [SData.mk SKind.verse (uts "a")]).length =
      ([] : List SlideU).length + [SData.mk SKind.verse (uts "a")].length +
        ([] : List SlideU).length ∧
    (∀ d : SData, (adjustFit (dupSlide anchorEx) d.text).fresh = true ∧
      adjustFit (dupSlide anchorEx) d.text ≠ anchorEx)) :=
  C3_amended [] [] anchorEx [SData.mk SKind.verse (uts "a")]
    (by decide) (by decide)

/-! ## `decodeHtmlEntities` -/

/-- `/&#(\d+);/g` -/
def decRefItems : List RItem := [li 38, li 35, cl isDigitC Quant.plusG, li 59]

/-- `/&#x([a-fA-F0-9]+);/g` -/
def hexRefItems : List RItem :=
  [li 38, li 35, li 120, cl isHexC Quant.plusG, li 59]

/-- `/&([a-zA-Z]+);/g` -/
def namedRefItems : List RItem := [li 38, cl isAlphaC Quant.plusG, li 59]

/-- The named-entity table `{ amp, lt, gt, quot, apos, nbsp }`. -/
def entMap : List (Str × Str) :=
  [(uts "amp", uts "&"), (uts "lt", uts "<"), (uts "gt", uts ">"),
   (uts "quot", uts "\""), (uts "apos", uts "\x27"), (uts "nbsp", uts " ")]

/-- `(match, dec) => String.fromCharCode(dec)` — `fromCharCode` truncates the
numeric value to a UTF-16 code unit. -/
def decRefRepl (m : Str) (cnts : List Nat) : Str :=
  [decVal 0 ((m.drop 2).take (cnts.getD 2 0)) % 65536]

/-- `(match, hex) => String.fromCharCode(parseInt(hex, 16))`. -/
def hexRefRepl (m : Str) (cnts : List Nat) : Str :=
  [hexVal 0 ((m.drop 3).take (cnts.getD 3 0)) % 65536]

/-- `(match, entity) => entities[entity] || match`: unknown names stay
verbatim. -/
def namedRefRepl (m : Str) (cnts : List Nat) : Str :=
  match entMap.find? (fun pr => pr.1 == (m.drop 1).take (cnts.getD 1 0)) with
  | some pr => pr.2
  | none => m

/-- `decodeHtmlEntities(text)`: decimal references, then hex references, then
the named references. -/
def decodeHtmlEntities (text : Str) : Str :=
  gRepl namedRefItems namedRefRepl
    (gRepl hexRefItems hexRefRepl (gRepl decRefItems decRefRepl text))

/-- `t` contains no occurrence of any of the three reference patterns. -/
def noRefs (t : Str) : Bool :=
  (findMatch decRefItems t).isNone && (findMatch hexRefItems t).isNone &&
    (findMatch namedRefItems t).isNone

theorem gRepl_of_no_match (items : List RItem) (rf : Str → List Nat → Str)
    (s : Str) (h : findMatch items s = none) : gRepl items rf s = s := by
  cases s with
  | nil =>
    have hm : matchSeq items [] = none := by
      cases hcase : matchSeq items [] with
      | none => rfl
      | some cnts => simp [findMatch, hcase] at h
    simp [gRepl, gReplF, hm]
  | cons c cs =>
    simp [gRepl, gReplF, h]

theorem decode_fixpoint (t : Str) (h : noRefs t = true) :
    decodeHtmlEntities t = t := by
  simp only [noRefs, Bool.and_eq_true, Option.isNone_iff_eq_none] at h
  obtain ⟨⟨h1, h2⟩, h3⟩ := h
  rw [decodeHtmlEntities, gRepl_of_no_match _ _ _ h1,
    gRepl_of_no_match _ _ _ h2, gRepl_of_no_match _ _ _ h3]

/-! ## `extractHymnVerses` -/

/-- `/<table[^>]*>([\s\S]*?)<\/table>/g` -/
def tableItems : List RItem :=
  lits "<table" ++ [cl nonGt Quant.starG, li 62, cl anyC Quant.starL] ++
    lits "</table>"

/-- `/<p>([\s\S]*?)<\/p>/g` -/
def pItems : List RItem := lits "<p>" ++ [cl anyC Quant.starL] ++ lits "</p>"

/-- `/<a[^>]*>.*?<\/a>/g` (JS `.` excludes line terminators) -/
def aItems : List RItem :=
  lits "<a" ++ [cl nonGt Quant.starG, li 62, cl noNl Quant.starL] ++ lits "</a>"

/-- `/<br\s*\/?>/gi` -/
def brItems : List RItem :=
  [li 60] ++ litsCI "br" ++
    [cl isWsCode Quant.starG, cl (· == 47) Quant.opt, li 62]

/-- `/<\/?[^>]+(>|$)/g → ''` (the hymn-block tag strip).  At a `<`, the
pattern consumes an optional `/`, one or more non-`>` characters, then a
closing `>` or the end of the string; because `[^>]+` subsumes the optional
`/` and is maximal, a match exists at a `<` exactly when at least one
non-`>` character follows it, and it ends at the next `>` or at the end. -/
def stripTagsHymnF : Nat → Str → Str
  | 0, s => s
  | _ + 1, [] => []
  | fuel + 1, c :: cs =>
    if c == 60 then
      let k := runLen nonGt cs
      if k == 0 then c :: stripTagsHymnF fuel cs
      else
        match cs.drop k with
        | 62 :: rest => stripTagsHymnF fuel rest
        | _ => stripTagsHymnF fuel (cs.drop k)
    else c :: stripTagsHymnF fuel cs

/-- `verseHtml.replace(/<\/?[^>]+(>|$)/g, "")`. -/
def stripTagsHymn (s : Str) : Str := stripTagsHymnF s.length s

/-- The `||LINEBREAK||` placeholder. -/
def lineBreakTok : Str := uts "||LINEBREAK||"

/-- Per-`<p>` processing of `extractHymnVerses`: remove anchor elements,
replace `<br>` by the placeholder, strip remaining tags, trim, then decode
entities. -/
def decodedOfBlock (pTag : Str) : Str :=
  decodeHtmlEntities (trimWs (stripTagsHymn
    (gRepl brItems (fun _ _ => lineBreakTok)
      (gRepl aItems (fun _ _ => []) pTag))))

/-- `/[ \t]+/g` -/
def spTabItems : List RItem := [cl (fun c => c == 32 || c == 9) Quant.plusG]

/-- The cleanup applied to a decoded block: placeholder to newline, blank-line
collapse (`/\n\s*\n/g`), trim (`/^\s+|\s+$/g`), inline space collapse. -/
def cleanedOfBlock (decoded : Str) : Str :=
  gRepl spTabItems (fun _ _ => [32])
    (trimWs (gRepl nlWsNlItems (fun _ _ => [10])
      (repAll lineBreakTok [10] decoded)))

/-- `cleanedVerse.toLowerCase().includes("refrain")`. -/
def isRefrainBlock (c : Str) : Bool := hasSub (toLowerS c) (uts "refrain")

/-- One iteration of the `pTags.forEach` classification: skip blocks whose
decoded text is blank, assign refrain-containing blocks as the refrain
(overwriting any earlier one), append the rest to the verses when non-empty. -/
def classifyStep (acc : List Str × Str) (pTag : Str) : List Str × Str :=
  let decoded := decodedOfBlock pTag
  if decoded ≠ [] ∧ trimWs decoded ≠ [] then
    let cleaned := cleanedOfBlock decoded
    if isRefrainBlock cleaned then (acc.1, cleaned)
    else if cleaned.length > 0 then (acc.1 ++ [cleaned], acc.2)
    else acc
  else acc

/-- The whole classification loop. -/
def processBlocks (pTags : List Str) : List Str × Str :=
  pTags.foldl classifyStep ([], [])

/-- `extractHymnVerses(html)`: first `<table>` region, its `<p>` blocks,
classified into ordered verses and the refrain (`""` when absent). -/
def extractHymnVerses (html : Str) : List Str × Str :=
  match findAll tableItems html with
  | [] => ([], [])
  | contentBoxHtml :: _ => processBlocks (findAll pItems contentBoxHtml)

/-! ## Substring lemmas -/

theorem hasSub_cons (c : Nat) (cs pat : Str) :
    hasSub (c :: cs) pat = (hasPref pat (c :: cs) || hasSub cs pat) := rfl

theorem hasPref_iff (p : Str) : ∀ s, hasPref p s = true ↔ ∃ t, s = p ++ t := by
  induction p with
  | nil =>
    intro s
    simp only [hasPref, List.nil_append, true_iff]
    exact ⟨s, rfl⟩
  | cons x xs ih =>
    intro s
    cases s with
    | nil =>
      simp only [hasPref, List.cons_append]
      constructor
      · intro h; exact absurd h (by decide)
      · rintro ⟨t, ht⟩; exact List.noConfusion ht
    | cons c cs =>
      simp only [hasPref, Bool.and_eq_true, beq_iff_eq]
      constructor
      · rintro ⟨hx, hp⟩
        obtain ⟨t, ht⟩ := (ih cs).mp hp
        subst hx
        exact ⟨t, by rw [ht, List.cons_append]⟩
      · rintro ⟨t, ht⟩
        rw [List.cons_append] at ht
        injection ht with h1 h2
        exact ⟨h1.symm, (ih cs).mpr ⟨t, h2⟩⟩

theorem hasSub_iff (s pat : Str) :
    hasSub s pat = true ↔ ∃ a b, s = a ++ pat ++ b := by
  induction s with
  | nil =>
    rw [show hasSub [] pat = hasPref pat [] from by simp [hasSub]]
    rw [hasPref_iff]
    constructor
    · rintro ⟨t, ht⟩
      exact ⟨[], t, by simpa using ht⟩
    · rintro ⟨a, b, hab⟩
      have h1 := List.append_eq_nil.mp hab.symm
      have h2 := List.append_eq_nil.mp h1.1
      exact ⟨[], by rw [h2.2]; rfl⟩
  | cons c cs ih =>
    rw [hasSub_cons, Bool.or_eq_true, hasPref_iff, ih]
    constructor
    · rintro (⟨t, ht⟩ | ⟨a, b, hab⟩)
      · exact ⟨[], t, by simpa using ht⟩
      · exact ⟨c :: a, b, by rw [hab]; simp⟩
    · rintro ⟨a, b, hab⟩
      cases a with
      | nil => exact Or.inl ⟨b, by simpa using hab⟩
      | cons a0 as =>
        simp only [List.cons_append] at hab
        injection hab with h1 h2
        exact Or.inr ⟨as, b, h2⟩

theorem repAllF_no_match (pat rep : Str) :
    ∀ fuel s, hasSub s pat = false → repAllF pat rep fuel s = s := by
  intro fuel
  induction fuel with
  | zero => intro s h; rfl
  | succ k ih =>
    intro s h
    cases s with
    | nil => rfl
    | cons c cs =>
      rw [hasSub_cons, Bool.or_eq_false_iff] at h
      obtain ⟨h1, h2⟩ := h
      simp only [repAllF]
      rw [if_neg fun hcond => absurd hcond.2 (by simp [h1]), ih cs h2]

theorem repAll_no_match (pat rep s : Str) (h : hasSub s pat = false) :
    repAll pat rep s = s := repAllF_no_match pat rep s.length s h

/-! ## C7: decoder idempotence -/

/-- Spec-side reading of "a valid reference starts here": one of the three
recognized reference patterns matches this suffix (for a named reference, the
name must be in the table). -/
def validRefAt (t : Str) : Bool :=
  (matchSeq decRefItems t).isSome || (matchSeq hexRefItems t).isSome ||
    (match matchSeq namedRefItems t with
     | some cnts =>
       (entMap.find? fun pr => pr.1 == (t.drop 1).take (cnts.getD 1 0)).isSome
     | none => false)

/-- Spec-side reading of "input containing only valid references": every
ampersand in `s` begins a valid recognized reference. -/
def specOnlyValidRefs (s : Str) : Bool :=
  s.tails.all fun t =>
    match t with
    | 38 :: _ => validRefAt t
    | _ => true

/-- C7 counterexample.  `"&amp;lt;"` contains only valid references (its only
`&` begins the valid reference `&amp;`), yet decoding is not idempotent on
it: one decode yields `"&lt;"`, a second yields `"<"`.  Decoding an `&amp;`
that is juxtaposed with text of the form `name;` manufactures a new
reference, which a second pass decodes again. -/
theorem C7_counterexample :
    specOnlyValidRefs (uts "&amp;lt;") = true ∧
    decodeHtmlEntities (uts "&amp;lt;") = uts "&lt;" ∧
    decodeHtmlEntities (decodeHtmlEntities (uts "&amp;lt;")) = uts "<" ∧
    decodeHtmlEntities (decodeHtmlEntities (uts "&amp;lt;")) ≠
      decodeHtmlEntities (uts "&amp;lt;") :=
  ⟨by decide, by decide, by decide, by decide⟩

/-- C7 amended.  The decoder is idempotent on every input whose decoded form
contains no remaining recognizable reference (in particular whenever decoding
does not create a reference by juxtaposition), and a bare already-decoded
literal `&` is never decoded again. -/
theorem C7_decode_amended (s : Str)
    (h : noRefs (decodeHtmlEntities s) = true) :
    decodeHtmlEntities (decodeHtmlEntities s) = decodeHtmlEntities s ∧
    decodeHtmlEntities (uts "&") = uts "&" :=
  ⟨decode_fixpoint _ h, by decide⟩

/-- Witness for C7's amended statement at `"&amp; x"` (decodes to `"& x"`,
which has no remaining reference). -/
theorem C7_decode_amended_witness :
    decodeHtmlEntities (decodeHtmlEntities (uts "&amp; x")) =
      decodeHtmlEntities (uts "&amp; x") ∧
    decodeHtmlEntities (uts "&") = uts "&" :=
  C7_decode_amended (uts "&amp; x") (by decide)

/-! ## C6: hymn classification -/

/-- Spec-side: the cleaned text of a `<p>` block that passes the
decoded-non-blank guard. -/
def keptClean (pTag : Str) : Option Str :=
  if decodedOfBlock pTag ≠ [] ∧ trimWs (decodedOfBlock pTag) ≠ [] then
    some (cleanedOfBlock (decodedOfBlock pTag))
  else none

/-- The `<p>` blocks of the first `<table>` region of a hymn page. -/
def hymnBlocksOf (html : Str) : List Str :=
  match findAll tableItems html with
  | [] => []
  | contentBoxHtml :: _ => findAll pItems contentBoxHtml

/-- Spec-side: the verses are the kept, non-refrain, non-empty cleaned blocks
in encounter order. -/
def versesSpec (pTags : List Str) : List Str :=
  (pTags.filterMap keptClean).filter fun c => !isRefrainBlock c && !c.isEmpty

/-- Spec-side: the refrain is the last kept refrain-containing block
(empty string when none). -/
def refrainSpec (pTags : List Str) : Str :=
  ((pTags.filterMap keptClean).filter isRefrainBlock).getLastD []

theorem getLastD_cons_eq (b : Str) (l : List Str) (a : Str) :
    (b :: l).getLastD a = l.getLastD b := by
  cases l <;> simp [List.getLastD]

theorem classify_fold (pTags : List Str) :
    ∀ vs r, pTags.foldl classifyStep (vs, r) =
      (vs ++ versesSpec pTags,
        ((pTags.filterMap keptClean).filter isRefrainBlock).getLastD r) := by
  induction pTags with
  | nil => intro vs r; simp [versesSpec]
  | cons p ps ih =>
    intro vs r
    rw [List.foldl_cons]
    by_cases hg : decodedOfBlock p ≠ [] ∧ trimWs (decodedOfBlock p) ≠ []
    · have hkept : keptClean p = some (cleanedOfBlock (decodedOfBlock p)) := by
        simp [keptClean, hg]
      have hfm : List.filterMap keptClean (p :: ps) =
          cleanedOfBlock (decodedOfBlock p) :: List.filterMap keptClean ps := by
        rw [List.filterMap_cons, hkept]
      by_cases hr : isRefrainBlock (cleanedOfBlock (decodedOfBlock p)) = true
      · have hstep : classifyStep (vs, r) p =
            (vs, cleanedOfBlock (decodedOfBlock p)) := by
          simp [classifyStep, hg, hr]
        have hvs : versesSpec (p :: ps) = versesSpec ps := by
          rw [versesSpec, hfm, List.filter_cons, if_neg (by simp [hr])]
          rfl
        have hrf : ((List.filterMap keptClean (p :: ps)).filter
              isRefrainBlock).getLastD r =
            ((List.filterMap keptClean ps).filter isRefrainBlock).getLastD
              (cleanedOfBlock (decodedOfBlock p)) := by
          rw [hfm, List.filter_cons, if_pos (by simp [hr]), getLastD_cons_eq]
        rw [hstep, ih, hvs, hrf]
      · have hr' : isRefrainBlock (cleanedOfBlock (decodedOfBlock p)) = false := by
          cases hx : isRefrainBlock (cleanedOfBlock (decodedOfBlock p)) with
          | false => rfl
          | true => exact absurd hx hr
        have hrf : ((List.filterMap keptClean (p :: ps)).filter
              isRefrainBlock).getLastD r =
            ((List.filterMap keptClean ps).filter isRefrainBlock).getLastD r := by
          rw [hfm, List.filter_cons, if_neg (by simp [hr'])]
        by_cases he : cleanedOfBlock (decodedOfBlock p) = []
        · have hrn : isRefrainBlock [] = false := by decide
          have hstep : classifyStep (vs, r) p = (vs, r) := by
            simp [classifyStep, hg, hrn, he]
          have hvs : versesSpec (p :: ps) = versesSpec ps := by
            rw [versesSpec, hfm, List.filter_cons, if_neg (by simp [he])]
            rfl
          rw [hstep, ih, hvs, hrf]
        · have hlen : 0 < (cleanedOfBlock (decodedOfBlock p)).length :=
            List.length_pos.mpr he
          have hstep : classifyStep (vs, r) p =
              (vs ++ [cleanedOfBlock (decodedOfBlock p)], r) := by
            simp [classifyStep, hg, hr, hlen]
          have hvs : versesSpec (p :: ps) =
              cleanedOfBlock (decodedOfBlock p) :: versesSpec ps := by
            rw [versesSpec, hfm, List.filter_cons,
              if_pos (by simp [hr', List.isEmpty_iff, he])]
            rfl
          rw [hstep, ih, hvs, hrf]
          simp [List.append_assoc]
    · have hkept : keptClean p = none := by simp [keptClean, hg]
      have hfm : List.filterMap keptClean (p :: ps) =
          List.filterMap keptClean ps := by
        rw [List.filterMap_cons, hkept]
      have hstep : classifyStep (vs, r) p = (vs, r) := by
        simp only [classifyStep]
        rw [if_neg hg]
      have hvs : versesSpec (p :: ps) = versesSpec ps := by
        rw [versesSpec, hfm]
        rfl
      rw [hstep, ih, hvs, hfm]

/-- C6.  For every hymn page, the classification loop assigns the last kept
block whose cleaned text case-insensitively contains "refrain" as the single
refrain, appends every other kept block with non-empty cleaned text to the
verses in encounter order, and skips blocks whose decoded text is blank; the
resulting document carries at most one refrain (a single string field). -/
theorem C6_classify (html : Str) :
    extractHymnVerses html =
      (versesSpec (hymnBlocksOf html), refrainSpec (hymnBlocksOf html)) := by
  cases hft : findAll tableItems html with
  | nil => simp [extractHymnVerses, hymnBlocksOf, hft, versesSpec, refrainSpec]
  | cons t ts =>
    simp only [extractHymnVerses, hymnBlocksOf, hft]
    rw [processBlocks, classify_fold]
    simp [refrainSpec]

/-! ## C10: case rules for classification versus bracketing -/

theorem slides_refrain_text (r : Str) :
    ∀ (verses : List Str) (d : SData), d ∈ slidesToCreateFor verses r →
      d.kind = SKind.refrain → d.text = formatRefrain r := by
  intro verses
  induction verses with
  | nil => intro d hd _; exact absurd hd (List.not_mem_nil d)
  | cons v vs ih =>
    intro d hd hk
    rw [slidesToCreateFor_cons] at hd
    rcases List.mem_append.mp hd with hmem | hmem
    · by_cases hc : v ≠ [] ∧ trimWs v ≠ []
      · rw [if_pos hc] at hmem
        rcases List.mem_cons.mp hmem with heq | hmem2
        · subst heq; exact absurd hk (by simp)
        · by_cases hrc : r ≠ [] ∧ vs ≠ []
          · rw [if_pos hrc] at hmem2
            rw [List.mem_singleton.mp hmem2]
          · rw [if_neg hrc] at hmem2
            exact absurd hmem2 (List.not_mem_nil d)
      · rw [if_neg hc] at hmem
        exact absurd hmem (List.not_mem_nil d)
    · exact ih d hmem hk

/-- C10.  Classification is case-insensitive (`toLowerCase().includes`) but
bracketing replaces only exact-case `"Refrain"`: a refrain block containing
the word only in another casing is classified as the refrain yet emitted
verbatim, with no `"[Refrain]"` anywhere in the emitted copies. -/
theorem C10_case_rules (r : Str) (verses : List Str)
    (h1 : hasSub (toLowerS r) (uts "refrain") = true)
    (h2 : hasSub r (uts "Refrain") = false) :
    isRefrainBlock r = true ∧
    formatRefrain r = r ∧
    (∀ d, d ∈ slidesToCreateFor verses r → d.kind = SKind.refrain →
      d.text = r ∧ hasSub d.text (uts "[Refrain]") = false) := by
  have hfmt : formatRefrain r = r := repAll_no_match _ _ _ h2
  refine ⟨h1, hfmt, ?_⟩
  intro d hd hk
  have htext := slides_refrain_text r verses d hd hk
  rw [hfmt] at htext
  refine ⟨htext, ?_⟩
  rw [htext]
  cases hbr : hasSub r (uts "[Refrain]") with
  | false => rfl
  | true =>
    obtain ⟨a, b, hab⟩ := (hasSub_iff r (uts "[Refrain]")).mp hbr
    have hsub : hasSub r (uts "Refrain") = true := by
      apply (hasSub_iff _ _).mpr
      refine ⟨a ++ uts "[", uts "]" ++ b, ?_⟩
      rw [hab,
        show uts "[Refrain]" = (uts "[" ++ uts "Refrain") ++ uts "]" from by decide]
      simp [List.append_assoc]
    exact absurd (hsub.symm.trans h2) (by decide)

/-- Witness for C10 at the all-caps refrain `"REFRAIN x"`. -/
theorem C10_case_rules_witness :
    isRefrainBlock (uts "REFRAIN x") = true ∧
    formatRefrain (uts "REFRAIN x") = uts "REFRAIN x" ∧
    (∀ d, d ∈ slidesToCreateFor [uts "a", uts "b"] (uts "REFRAIN x") →
      d.kind = SKind.refrain →
      d.text = uts "REFRAIN x" ∧ hasSub d.text (uts "[Refrain]") = false) :=
  C10_case_rules (uts "REFRAIN x") [uts "a", uts "b"] (by decide) (by decide)

/-! ## `extractScriptureText` -/

/-- Opening part of
`/<[^>]*class\s*=\s*["']?[^"']*std-text[^"']*["']?[^>]*>([\s\S]*)/i`. -/
def stdOpenItems : List RItem :=
  [li 60, cl nonGt Quant.starG] ++ litsCI "class" ++
    [cl isWsCode Quant.starG, li 61, cl isWsCode Quant.starG,
     cl quoteC Quant.opt, cl nonQuoteC Quant.starG] ++ litsCI "std-text" ++
    [cl nonQuoteC Quant.starG, cl quoteC Quant.opt, cl nonGt Quant.starG, li 62]

/-- The whole std-text pattern; the trailing greedy `[\s\S]*` is the capture
group (the rest of the document). -/
def stdTextItems : List RItem := stdOpenItems ++ [cl anyC Quant.starG]

/-- `stdTextMatch[1]`: the capture of the first std-text match. -/
def stdTextCapture (html : Str) : Option Str :=
  match findMatch stdTextItems html with
  | none => none
  | some (p, cnts) => some (capSlice html p cnts stdOpenItems.length)

/-- `substring(i, i + pat.length) === pat`. -/
def sliceEq (t : Str) (i : Nat) (pat : Str) : Bool := hasPref pat (t.drop i)

/-- The balanced-`div` scan: starting with `divCount = 1`, a `<div` with a
later `>` increments the count and jumps past that `>`, a `</div>`
decrements it, and the scan stops at the `</div>` that returns the count to
zero, yielding that index.  Falling off the end leaves `endIndex = 0`; a
break at index 0 also yields 0, and the caller treats both identically
(`endIndex > 0 ? substring(0, endIndex) : textContent`). -/
def divScanF (t : Str) : Nat → Nat → Nat → Nat
  | 0, _, _ => 0
  | fuel + 1, i, c =>
    if i < t.length then
      if sliceEq t i (uts "<div") then
        match (t.drop i).findIdx? (· == 62) with
        | some j => divScanF t fuel (i + j + 1) (c + 1)
        | none => divScanF t fuel (i + 1) c
      else if sliceEq t i (uts "</div>") then
        if c == 1 then i else divScanF t fuel (i + 6) (c - 1)
      else divScanF t fuel (i + 1) c
    else 0

/-- The scan over the whole capture. -/
def divScan (t : Str) : Nat := divScanF t (t.length + 1) 0 1

/-- `endIndex > 0 ? textContent.substring(0, endIndex) : textContent`. -/
def truncateAtDiv (t : Str) : Str :=
  if divScan t > 0 then t.take (divScan t) else t

/-- Opening part of
`/<[^>]*class\s*=\s*["']?[^"']*versenum[^"']*["']?[^>]*>([\s\S]*?)<\/[^>]+>/gi`. -/
def vnOpenItems : List RItem :=
  [li 60, cl nonGt Quant.starG] ++ litsCI "class" ++
    [cl isWsCode Quant.starG, li 61, cl isWsCode Quant.starG,
     cl quoteC Quant.opt, cl nonQuoteC Quant.starG] ++ litsCI "versenum" ++
    [cl nonQuoteC Quant.starG, cl quoteC Quant.opt, cl nonGt Quant.starG, li 62]

/-- The whole versenum-marker pattern (lazy inner capture, then a closing
tag `<\/[^>]+>`). -/
def vnItems : List RItem :=
  vnOpenItems ++ [cl anyC Quant.starL, li 60, li 47, cl nonGt Quant.plusG, li 62]

/-- `/<[^>]+>/g` -/
def tagItems : List RItem := [li 60, cl nonGt Quant.plusG, li 62]

/-- The positional token `` {{VERSE_i}} `` (braces written as `\x7b`/`\x7d`). -/
def tokOf (i : Nat) : Str :=
  uts "\x7b\x7bVERSE_" ++ (natDecDigits i ++ uts "\x7d\x7d")

/-- The versenum replacement pass: each marker, left to right, becomes
`{{VERSE_k}}` with `k` the number of markers already recorded, and the
marker's tag-stripped trimmed inner text is appended to the record
(`verseNumbers.push(...)` inside the replace callback). -/
def versePassF : Nat → Str → List Str → Str × List Str
  | 0, s, acc => (s, acc)
  | _ + 1, [], acc => ([], acc)
  | fuel + 1, c :: cs, acc =>
    match findMatch vnItems (c :: cs) with
    | none => (c :: cs, acc)
    | some (p, cnts) =>
      let m := sumL cnts
      let cap := capSlice (c :: cs) p cnts vnOpenItems.length
      let num := trimWs (gRepl tagItems (fun _ _ => []) cap)
      let res := versePassF fuel ((c :: cs).drop (p + max m 1)) (acc ++ [num])
      ((c :: cs).take p ++ tokOf acc.length ++ res.1, res.2)

/-- The versenum pass over the truncated capture. -/
def versePass (s : Str) : Str × List Str := versePassF (s.length + 1) s []

/-- `/<sup[^>]*>[\s\S]*?<\/sup>/gi` -/
def supItems : List RItem :=
  [li 60] ++ litsCI "sup" ++
    [cl nonGt Quant.starG, li 62, cl anyC Quant.starL, li 60, li 47] ++
    litsCI "sup" ++ [li 62]

/-- `/\(\s*[A-Z]\s*\)/g` -/
def citItems : List RItem :=
  [li 40, cl isWsCode Quant.starG, cl upperC Quant.one,
   cl isWsCode Quant.starG, li 41]

/-- `/\s+/g` -/
def wsPlusItems : List RItem := [cl isWsCode Quant.plusG]

/-- The cleanup between marker protection and restoration: remove `sup`
elements, strip remaining tags to spaces, remove parenthesized single-letter
citation markers, collapse whitespace and trim, replace the literal named
entities and `&#39;`, and delete remaining decimal references. -/
def scriptureCleanup (t : Str) : Str :=
  gRepl decRefItems (fun _ _ => [])
    (repAll (uts "&#39;") [39]
      (repAll (uts "&quot;") [34]
        (repAll (uts "&gt;") [62]
          (repAll (uts "&lt;") [60]
            (repAll (uts "&amp;") [38]
              (repAll (uts "&nbsp;") [32]
                (trimWs (gRepl wsPlusItems (fun _ _ => [32])
                  (gRepl citItems (fun _ _ => [])
                    (gRepl tagItems (fun _ _ => [32])
                      (gRepl supItems (fun _ _ => []) t)))))))))))

/-- The `verseNumbers.forEach` restore loop: first-occurrence replacement of
each positional token, in index order, by its number followed by a space. -/
def restoreFrom (i : Nat) : List Str → Str → Str
  | [], t => t
  | n :: ns, t => restoreFrom (i + 1) ns (repFirst (tokOf i) (n ++ [32]) t)

/-- `extractScriptureText(htmlContent)`. -/
def extractScriptureText (html : Str) : Str :=
  match stdTextCapture html with
  | none => []
  | some cap =>
    if cap = [] then []
    else
      let pr := versePass (truncateAtDiv cap)
      restoreFrom 0 pr.2 (scriptureCleanup pr.1)

/-- The verse numbers detected by the marker pass (the `verseNumbers` list). -/
def detectedNums (html : Str) : List Str :=
  match stdTextCapture html with
  | none => []
  | some cap => (versePass (truncateAtDiv cap)).2

/-- A scripture page whose passage text contains a preexisting literal
`{{VERSE_1}}` before the two genuine verse-number markers "3" and "4". -/
def scriptureCex : Str :=
  uts "<p class=\"std-text\">\x7b\x7bVERSE_1\x7d\x7da<q class=\"versenum\">3</q>b<q class=\"versenum\">4</q>"

/-- C5 counterexample.  The markers "3" then "4" are detected in order, but
first-occurrence restoration lets the preexisting literal token capture the
number "4": the output is `"4 a3 b{{VERSE_1}}"`, in which "4" (code 52)
appears before "3" (code 51) and one genuine token is left unrestored — the
restored numbers are not in detection order. -/
theorem C5_counterexample :
    detectedNums scriptureCex = [uts "3", uts "4"] ∧
    extractScriptureText scriptureCex = uts "4 a3 b\x7b\x7bVERSE_1\x7d\x7d" ∧
    (extractScriptureText scriptureCex).findIdx (· == 52) <
      (extractScriptureText scriptureCex).findIdx (· == 51) :=
  ⟨by decide, by decide, by decide⟩

/-! ## C5 amended: restoration preserves counts and order when the processed
text holds exactly the genuine tokens -/

/-- No `{` (code 123) occurs in `s`, so no marker token occurs in `s` or
straddles its boundary. -/
def noBrace (s : Str) : Bool := s.all fun c => !(c == 123)

/-- The processed text with the positional tokens in place:
`s₀ {{VERSE_i}} s₁ {{VERSE_i+1}} ... sₖ`. -/
def assembleToks : List Str → Nat → Str
  | [], _ => []
  | [s], _ => s
  | s :: rest, i => s ++ tokOf i ++ assembleToks rest (i + 1)

/-- The restored text: `s₀ n₀␣ s₁ n₁␣ ... sₖ`. -/
def assembleNums : List Str → List Str → Str
  | [s], [] => s
  | s :: rest, n :: ns => s ++ (n ++ [32]) ++ assembleNums rest ns
  | _, _ => []

theorem hasPref_append_self : ∀ (p t : Str), hasPref p (p ++ t) = true := by
  intro p
  induction p with
  | nil => intro t; rfl
  | cons x xs ih =>
    intro t
    simp only [List.cons_append, hasPref, beq_self_eq_true, Bool.true_and]
    exact ih t

theorem repFirst_at_marker (pat rep : Str) (hp : pat.head? = some 123) :
    ∀ (a b : Str), noBrace a = true →
      repFirst pat rep (a ++ (pat ++ b)) = a ++ (rep ++ b) := by
  cases pat with
  | nil => intro a b _; exact absurd hp (by simp)
  | cons p0 ps =>
    have hp0 : p0 = 123 := by simpa using hp
    subst hp0
    intro a
    induction a with
    | nil =>
      intro b _
      simp only [List.nil_append, List.cons_append]
      rw [repFirst,
        if_pos (show hasPref (123 :: ps) (123 :: (ps ++ b)) = true by
          have := hasPref_append_self (123 :: ps) b
          simpa using this)]
      simp only [List.length_cons, List.drop_succ_cons]
      rw [List.drop_left]
    | cons a0 as ih =>
      intro b hnb
      simp only [noBrace, List.all_cons, Bool.and_eq_true] at hnb
      have ha0 : (123 == a0) = false := by
        rcases hnb with ⟨h1, _⟩
        cases hx : (123 == a0) with
        | false => rfl
        | true =>
          rw [beq_iff_eq] at hx
          rw [← hx] at h1
          exact absurd h1 (by decide)
      simp only [List.cons_append]
      rw [repFirst, if_neg (by simp [hasPref, ha0])]
      have ih' := ih b hnb.2
      simp only [List.cons_append] at ih'
      rw [ih']

theorem noBrace_append (x y : Str) (hx : noBrace x = true)
    (hy : noBrace y = true) : noBrace (x ++ y) = true := by
  simp only [noBrace, List.all_append, Bool.and_eq_true]
  exact ⟨hx, hy⟩

theorem restore_assemble :
    ∀ (nums segs : List Str) (i : Nat) (pre : Str),
      segs.length = nums.length + 1 → noBrace pre = true →
      (∀ s ∈ segs, noBrace s = true) → (∀ n ∈ nums, noBrace n = true) →
      restoreFrom i nums (pre ++ assembleToks segs i) =
        pre ++ assembleNums segs nums := by
  intro nums
  induction nums with
  | nil =>
    intro segs i pre hlen _ _ _
    cases segs with
    | nil => simp at hlen
    | cons s rest =>
      cases rest with
      | nil => simp [restoreFrom, assembleToks, assembleNums]
      | cons r0 rest2 => simp at hlen
  | cons n ns ih =>
    intro segs i pre hlen hpre hsegs hnums
    cases segs with
    | nil => simp at hlen
    | cons s rest =>
      cases rest with
      | nil => simp at hlen
      | cons r0 rest2 =>
        have hs : noBrace s = true := hsegs s (by simp)
        have hn : noBrace n = true := hnums n (by simp)
        have hasm : pre ++ assembleToks (s :: r0 :: rest2) i =
            (pre ++ s) ++ (tokOf i ++ assembleToks (r0 :: rest2) (i + 1)) := by
          rw [show assembleToks (s :: r0 :: rest2) i =
            s ++ tokOf i ++ assembleToks (r0 :: rest2) (i + 1) from rfl]
          simp [List.append_assoc]
        rw [show restoreFrom i (n :: ns) (pre ++ assembleToks (s :: r0 :: rest2) i) =
          restoreFrom (i + 1) ns (repFirst (tokOf i) (n ++ [32])
            (pre ++ assembleToks (s :: r0 :: rest2) i)) from rfl]
        rw [hasm, repFirst_at_marker (tokOf i) (n ++ [32]) rfl (pre ++ s)
          (assembleToks (r0 :: rest2) (i + 1)) (noBrace_append pre s hpre hs)]
        have hregroup : (pre ++ s) ++ ((n ++ [32]) ++ assembleToks (r0 :: rest2) (i + 1)) =
            ((pre ++ s) ++ (n ++ [32])) ++ assembleToks (r0 :: rest2) (i + 1) := by
          simp [List.append_assoc]
        rw [hregroup, ih (r0 :: rest2) (i + 1) ((pre ++ s) ++ (n ++ [32]))
          (by simp only [List.length_cons] at hlen ⊢; omega)
          (noBrace_append _ _ (noBrace_append pre s hpre hs)
            (noBrace_append n [32] hn (by decide)))
          (fun x hx => hsegs x (by simp [hx]))
          (fun x hx => hnums x (by simp [hx]))]
        rw [show assembleNums (s :: r0 :: rest2) (n :: ns) =
          s ++ (n ++ [32]) ++ assembleNums (r0 :: rest2) ns from rfl]
        simp [List.append_assoc]

/-- C5 amended.  The restoration loop inserts exactly one verse number per
detected marker, in detection order: whenever the processed text consists of
brace-free segments separated by the positional tokens in index order (the
shape the pipeline produces when the page contains no preexisting literal
token text and no marker is destroyed by the footnote removal), the restored
body is the same segments separated by the detected numbers, in the same
left-to-right order — so the restored count equals the detected count and an
input with markers "3" then "4" yields "3 ... 4". -/
theorem C5_restore_amended (segs nums : List Str)
    (hlen : segs.length = nums.length + 1)
    (hsegs : ∀ s ∈ segs, noBrace s = true)
    (hnums : ∀ n ∈ nums, noBrace n = true) :
    restoreFrom 0 nums (assembleToks segs 0) = assembleNums segs nums := by
  have h := restore_assemble nums segs 0 [] hlen rfl hsegs hnums
  simpa using h

/-- Witness for C5's amended statement: two markers "3", "4" with three
brace-free segments restore in detection order. -/
theorem C5_restore_amended_witness :
    restoreFrom 0 [uts "3", uts "4"]
      (assembleToks [uts "In ", uts " beginning ", uts " God"] 0) =
    assembleNums [uts "In ", uts " beginning ", uts " God"]
      [uts "3", uts "4"] :=
  C5_restore_amended [uts "In ", uts " beginning ", uts " God"]
    [uts "3", uts "4"] (by decide) (by decide) (by decide)

/-! ## C8: local recovery of missing structural markers -/

/-- C8.  When a hymn page has no `<table>` element (the table regex finds no
match) the extractor returns the empty document, and when a scripture page
has no `std-text` container the extractor returns the empty string — both
recover locally, no exception escapes (the embedding is total). -/
theorem C8_recovery (hymnHtml scriptureHtml : Str)
    (h1 : findAll tableItems hymnHtml = [])
    (h2 : findMatch stdTextItems scriptureHtml = none) :
    extractHymnVerses hymnHtml = ([], []) ∧
    extractScriptureText scriptureHtml = [] := by
  constructor
  · simp [extractHymnVerses, h1]
  · simp [extractScriptureText, stdTextCapture, h2]

/-- Witness for C8 at concrete marker-free inputs. -/
theorem C8_recovery_witness :
    extractHymnVerses (uts "no tables here") = ([], []) ∧
    extractScriptureText (uts "nothing") = [] :=
  C8_recovery (uts "no tables here") (uts "nothing") (by decide) (by decide)

/-! ## `searchGmailForPraiseLyrics`: email lyric extraction

The Gmail lookup itself is host glue; the claims concern the pure processing
of a found message's rich body (`getBody()`) and plain body
(`getPlainBody()`), modelled here as the two string inputs.  The returned
entity's `subject`/`date` fields are host metadata and are omitted. -/

/-- One extracted song `{ title, lyrics }`. -/
structure Song where
  title : Str
  lyrics : List Str
  deriving DecidableEq, Repr

/-- The paragraph-grouping loop of the plain-body path (`lines[i] === ''`
flushes the current paragraph; the trailing flush appends the remainder). -/
def paraGroups : List Str → List Str → List Str
  | cur, [] => if cur ≠ [] then [joinNl cur] else []
  | cur, l :: ls =>
    if l == [] then
      (if cur ≠ [] then joinNl cur :: paraGroups [] ls else paraGroups [] ls)
    else paraGroups (cur ++ [l]) ls

/-- The plain-body fallback: trimmed non-empty lines; fewer than two lines
yields no entity; otherwise the first line is the title and the remaining
lines group into paragraphs. -/
def plainPath (plain : Str) : Option Song :=
  let lines := ((splitOnCode 10 plain).map trimWs).filter (· ≠ [])
  if lines.length < 2 then none
  else some (Song.mk (lines.headD []) (paraGroups [] (lines.drop 1)))

/-- Opening part of `/<div[^>]*>(.*?)<\/div>/gi`. -/
def divOpenItems : List RItem :=
  [li 60] ++ litsCI "div" ++ [cl nonGt Quant.starG, li 62]

/-- The whole div pattern (lazy dot capture — `.` excludes line
terminators). -/
def divItems : List RItem :=
  divOpenItems ++ [cl noNl Quant.starL, li 60, li 47] ++ litsCI "div" ++ [li 62]

/-- `/^\s*<br\s*\/?>\s*$/` (no `i` flag: lowercase `br` only). -/
def brOnlyItems : List RItem :=
  [cl isWsCode Quant.starG, li 60, li 98, li 114, cl isWsCode Quant.starG,
   cl (· == 47) Quant.opt, li 62, cl isWsCode Quant.starG]

/-- `/<[^>]*>/g` (a star, so `<>` also matches). -/
def tagStarItems : List RItem := [li 60, cl nonGt Quant.starG, li 62]

/-- `/=\r?\n/g` -/
def eqNlItems : List RItem := [li 61, cl (· == 13) Quant.opt, li 10]

/-- `/=[0-9A-F]{2}/gi` -/
def eqHexItems : List RItem := [li 61, cl isHexC Quant.one, cl isHexC Quant.one]

/-- The `||BREAK||` marker pushed for a `<br>`-only div. -/
def breakTok : Str := uts "||BREAK||"

/-- `content.replace(/<br\s*\/?>/gi, ' ').replace(/<[^>]*>/g, '').trim()`. -/
def divContentClean (content : Str) : Str :=
  trimWs (gRepl tagStarItems (fun _ _ => [])
    (gRepl brItems (fun _ _ => [32]) content))

/-- The entity / quoted-printable cleanup applied after the non-empty check
(numeric references are deleted, `=E2=80=99` becomes an apostrophe, soft
line breaks and stray `=XX` escapes are removed). -/
def divEntityClean (content : Str) : Str :=
  gRepl eqHexItems (fun _ _ => [])
    (gRepl eqNlItems (fun _ _ => [])
      (repAll (uts "=E2=80=99") [39]
        (gRepl decRefItems (fun _ _ => [])
          (repAll (uts "&#39;") [39]
            (repAll (uts "&quot;") [34]
              (repAll (uts "&gt;") [62]
                (repAll (uts "&lt;") [60]
                  (repAll (uts "&amp;") [38]
                    (repAll (uts "&nbsp;") [32] content)))))))))

/-- The `divPattern.exec` loop: each matched div contributes `||BREAK||`
(when its raw content is a bare `<br>`), its cleaned content (when the
br/tag-stripped trim is non-empty; note the entity cleanup runs after that
check and may itself produce the empty string), or nothing. -/
def divLoopF : Nat → Str → List Str
  | 0, _ => []
  | _ + 1, [] => []
  | fuel + 1, c :: cs =>
    match findMatch divItems (c :: cs) with
    | none => []
    | some (p, cnts) =>
      let m := sumL cnts
      let content := capSlice (c :: cs) p cnts divOpenItems.length
      let rest := divLoopF fuel ((c :: cs).drop (p + max m 1))
      if matchesFull brOnlyItems content then breakTok :: rest
      else
        let cleaned := divContentClean content
        if cleaned ≠ [] then divEntityClean cleaned :: rest else rest

/-- All div contributions of the rich body. -/
def divLoop (s : Str) : List Str := divLoopF (s.length + 1) s

/-- The section-grouping loop over `divContents` (`||BREAK||` flushes). -/
def sectionGroups : List Str → List Str → List Str
  | cur, [] => if cur ≠ [] then [joinNl cur] else []
  | cur, item :: rest =>
    if item == breakTok then
      (if cur ≠ [] then joinNl cur :: sectionGroups [] rest
       else sectionGroups [] rest)
    else sectionGroups (cur ++ [item]) rest

/-- `/(silver|gold|will|within|sin)$/i` -/
def endsAnchor (l : Str) : Bool :=
  [uts "silver", uts "gold", uts "will", uts "within", uts "sin"].any
    fun w => hasSuf (toLowerS l) w

/-- The heuristic verse-chunking loop of the `divContents` fallback
(`i` is the 0-based index into `remainingLines`). -/
def heurGroups : List Str → Nat → List Str → List Str
  | cur, _, [] => if cur ≠ [] then [joinNl cur] else []
  | cur, i, l :: ls =>
    let cur2 := cur ++ [l]
    if endsAnchor l || cur2.length == 4 ||
        (cur2.length == 2 && decide (i < 4)) then
      joinNl cur2 :: heurGroups [] (i + 1) ls
    else heurGroups cur2 (i + 1) ls

/-- The fixed 14-line chunking `[0,2) [2,6) [6,10) [10,14)`. -/
def chunk14 (remaining : List Str) : List Str :=
  [joinNl (remaining.take 2),
   joinNl ((remaining.drop 2).take 4),
   joinNl ((remaining.drop 6).take 4),
   joinNl ((remaining.drop 10).take 4)]

/-- The rich-body path: div contents, `<br>`-separated section grouping, then
the `divContents` fallback with fixed or heuristic chunking. -/
def richPath (body : Str) : Option Song :=
  let divContents := divLoop body
  let sections := sectionGroups [] divContents
  if sections.length ≥ 2 then
    some (Song.mk (sections.headD []) (sections.drop 1))
  else if divContents ≠ [] then
    let contentOnly := divContents.filter (· ≠ breakTok)
    if contentOnly.length < 2 then none
    else
      let remaining := contentOnly.drop 1
      let lyrics :=
        if remaining.length ≥ 14 then chunk14 remaining
        else heurGroups [] 0 remaining
      some (Song.mk (contentOnly.headD []) lyrics)
  else none

/-- The body processing of `searchGmailForPraiseLyrics` once a message is
found: an absent or blank rich body falls back to the plain body. -/
def searchEmailSong (body plain : Str) : Option Song :=
  if body = [] ∨ trimWs body = [] then plainPath plain else richPath body

theorem paraGroups_ne_nil :
    ∀ (l : List Str) (cur : List Str),
      cur ≠ [] ∨ (∃ x ∈ l, x ≠ []) → paraGroups cur l ≠ [] := by
  intro l
  induction l with
  | nil =>
    intro cur hc
    rcases hc with hc | ⟨x, hx, _⟩
    · simp [paraGroups, hc]
    · exact absurd hx (List.not_mem_nil x)
  | cons l0 ls ih =>
    intro cur hc
    by_cases h0 : l0 = []
    · subst h0
      by_cases hcu : cur = []
      · subst hcu
        rw [show paraGroups [] ([] :: ls) = paraGroups [] ls from by
          simp [paraGroups]]
        apply ih
        right
        rcases hc with hc | ⟨x, hx, hxne⟩
        · exact absurd rfl hc
        · rcases List.mem_cons.mp hx with hx0 | hxs
          · exact absurd hx0 hxne
          · exact ⟨x, hxs, hxne⟩
      · rw [show paraGroups cur ([] :: ls) =
            joinNl cur :: paraGroups [] ls from by simp [paraGroups, hcu]]
        exact List.cons_ne_nil _ _
    · rw [show paraGroups cur (l0 :: ls) = paraGroups (cur ++ [l0]) ls from by
        simp [paraGroups, h0]]
      exact ih (cur ++ [l0]) (Or.inl (by simp))

theorem heurGroups_ne_nil :
    ∀ (l : List Str) (cur : List Str) (i : Nat),
      cur ≠ [] ∨ l ≠ [] → heurGroups cur i l ≠ [] := by
  intro l
  induction l with
  | nil =>
    intro cur i hc
    rcases hc with hc | hc
    · simp [heurGroups, hc]
    · exact absurd rfl hc
  | cons l0 ls ih =>
    intro cur i _
    simp only [heurGroups]
    split
    · exact List.cons_ne_nil _ _
    · exact ih _ _ (Or.inl (by simp))

/-- C9 counterexample.  For a rich body whose first div decodes to the empty
string (`&#65;` is deleted by the numeric-reference removal), the extractor
returns an entity whose title is the empty string instead of failing, so
"when no stage yields a usable (non-empty) title ... it returns no entity"
does not hold; the sections list is still non-empty. -/
def emailCex : Str := uts "<div>&#65;</div><div><br/></div><div>hi</div>"

theorem C9_counterexample :
    searchEmailSong emailCex (uts "") = some (Song.mk [] [uts "hi"]) ∧
    (Song.mk [] [uts "hi"]).title = [] ∧
    (Song.mk [] [uts "hi"]).lyrics ≠ [] :=
  ⟨by decide, rfl, by decide⟩

/-- C9 amended.  Whenever the email song extractor returns an entity, its
list of lyric sections is non-empty; the extractor does not, however,
validate the title — it can return an entity whose title is the empty
string (see the counterexample) rather than treating the feature as
absent. -/
theorem C9_amended (body plain : Str) (song : Song)
    (h : searchEmailSong body plain = some song) : song.lyrics ≠ [] := by
  rw [searchEmailSong] at h
  split at h
  · -- plain path
    rw [plainPath] at h
    split at h
    · exact absurd h (by simp)
    · rename_i hlen
      injection h with hsong
      subst hsong
      apply paraGroups_ne_nil
      right
      have hlines : (((splitOnCode 10 plain).map trimWs).filter
          (· ≠ [])).drop 1 ≠ [] := by
        apply List.ne_nil_of_length_pos
        rw [List.length_drop]
        omega
      obtain ⟨x, hx⟩ := List.exists_mem_of_ne_nil _ hlines
      refine ⟨x, hx, ?_⟩
      have hxmem := List.mem_of_mem_drop hx
      have := List.of_mem_filter hxmem
      simpa using this
  · -- rich path
    rw [richPath] at h
    split at h
    · rename_i hsec
      injection h with hsong
      subst hsong
      apply List.ne_nil_of_length_pos
      rw [List.length_drop]
      omega
    · split at h
      · dsimp only at h
        split at h
        · exact absurd h (by simp)
        · rename_i hdiv hco
          injection h with hsong
          subst hsong
          simp only
          split
          · simp [chunk14]
          · apply heurGroups_ne_nil
            right
            apply List.ne_nil_of_length_pos
            rw [List.length_drop]
            omega
      · exact absurd h (by simp)

/-- Witness for C9's amended statement at a concrete plain-body message. -/
theorem C9_amended_witness :
    (Song.mk (uts "My Song") [uts "line one"]).lyrics ≠ [] :=
  C9_amended [] (uts "My Song\nline one") (Song.mk (uts "My Song") [uts "line one"])
    (by decide)
